import Mathlib

/-!
# AirportCodes: a shallow embedding of `AirportCodesWithoutStanford.cpp`

The program loads the lines of `AirportCodes.txt` into a `std::map<string,string>`
and then answers queries read from standard input.

Modelling conventions.

* A `std::string` is the list of its `char`s (`CppString`); one `Char` stands for
  one `char`.  Every theorem below is proved for all lists of `Char`, hence in
  particular for byte strings; every concrete input used below is plain ASCII.
* A `std::map<string,string>` is the sequence of its entries in key order
  (`Table`); `find`, `emplace` and `subscript` walk that sequence with the
  comparison `strLt` (the `operator<` of `std::string`) only, as the tree does.
* The data file is what `infile.open` and the successive `getline(infile, line)`
  calls deliver: `none` when the file cannot be opened, otherwise the list of
  its lines.  Standard input is the list of the lines that `getline(cin, line)`
  delivers; when it is exhausted `getline` fails and leaves `line` empty.
* An `int` has 32 bits and a `size_t` 64.  The counter `int i` of `toUpperCase`
  is an `Int` kept in range by `intWrap`, and it is compared with the length and
  used as an index through `toSizeT`.
* Standard output is the list of the texts written, one per output statement.
* `exit(0)` ends the process: it is the `Except.error` result of `readCodeFile`.
-/

namespace AirportCodes

/-- A `std::string`, as the list of its characters. -/
abbrev CppString := List Char

/-- A `std::map<string,string>`, as the list of its entries in key order. -/
abbrev Table := List (CppString × CppString)

/-- The C function `toupper` in the "C" locale (the program never calls
`setlocale`): the letters `a`..`z` (codes 97..122) move down by 32, every other
character is returned unchanged. -/
def toupper (c : Char) : Char :=
  if 97 ≤ c.toNat ∧ c.toNat ≤ 122 then Char.ofNat (c.toNat - 32) else c

/-- The value of an `int` (32 bits, two's complement) after an arithmetic step
whose exact result is `n`.  At `INT_MAX + 1` the language leaves the result
undefined; the value taken here is the wrapped one, `INT_MIN`, which the default
build computes. -/
def intWrap (n : Int) : Int :=
  (n + 2147483648) % 4294967296 - 2147483648

/-- The conversion of an `int` to `size_t` (64 bits, unsigned), as in the comparison
`i < str.length()` and in the index of `str[i]`. -/
def toSizeT (i : Int) : Nat :=
  (i % 18446744073709551616).toNat

/-- The loop of `toUpperCase`:
`for (int i = ..; i < str.length(); i++) str[i] = toupper(str[i]);`
started at the value `i` of the counter.  The first argument bounds the number of
iterations. -/
def toUpperCaseLoop : Nat → Int → CppString → CppString
  | 0, _, str => str
  | fuel + 1, i, str =>
    if toSizeT i < str.length then
      toUpperCaseLoop fuel (intWrap (i + 1))
        (str.set (toSizeT i) (toupper (str.getD (toSizeT i) (Char.ofNat 0))))
    else str

/-- The function `toUpperCase(string str)`: the loop run from `i = 0` on the copy
`str`, which is then returned.  `str.length()` iterations are enough for every
string that fits the address space (`toUpperCase_eq`). -/
def toUpperCase (str : CppString) : CppString :=
  toUpperCaseLoop str.length 0 str

/-- The order `operator<` of `std::string`: lexicographic on the character codes,
a proper initial segment being smaller. -/
def strLt : CppString → CppString → Bool
  | [], [] => false
  | [], _ :: _ => true
  | _ :: _, [] => false
  | a :: as, b :: bs =>
    if a.toNat < b.toNat then true
    else if b.toNat < a.toNat then false
    else strLt as bs

/-- The call `myMap.find(k)`: `none` stands for `end()`, `some v` for an iterator
to the entry `(k, v)`.  The search passes the entries whose key is smaller than
`k` and stops at the first one that is not; it is a hit when `k` is not smaller
than that key either. -/
def find (k : CppString) : Table → Option CppString
  | [] => none
  | (k', v') :: m =>
    if strLt k' k then find k m
    else if strLt k k' then none
    else some v'

/-- The call `myMap.emplace(k, v)`: the entry `(k, v)` is inserted at its place in
key order unless an entry with an equivalent key is there already, in which case
the map is left as it is. -/
def emplace (k v : CppString) : Table → Table
  | [] => [(k, v)]
  | (k', v') :: m =>
    if strLt k' k then (k', v') :: emplace k v m
    else if strLt k k' then (k, v) :: (k', v') :: m
    else (k', v') :: m

/-- The expression `myMap[k]`: the value stored under `k`; when there is none an
entry with the empty string is inserted first.  Returns the value and the map
after the call. -/
def subscript (k : CppString) (m : Table) : CppString × Table :=
  match find k m with
  | some v => (v, m)
  | none => ([], emplace k [] m)

/-- The string written before every read of the query loop. -/
def prompt : CppString := "Airport code: ".toList

/-- The message of a missed lookup, with the newline of `endl`. -/
def noSuchCode : CppString := "There is no such airport code\n".toList

/-- The text of `cout << code << " is in " << city << endl`. -/
def isIn (code city : CppString) : CppString :=
  code ++ " is in ".toList ++ city ++ "\n".toList

/-- The text of `cout << "Illegal data line: " + line`. -/
def illegalLine (line : CppString) : CppString :=
  "Illegal data line: ".toList ++ line

/-- The text of `cout << "Can't read the data file"`. -/
def cantRead : CppString := "Can't read the data file".toList

/-- The test `line.length() < 4 || line[3] != '='` of `readCodeFile`. -/
def malformed (line : CppString) : Bool :=
  decide (line.length < 4) || (line.get? 3 != some '=')

/-- A process ended by `exit(status)`: what it had written, and the status. -/
structure Exit where
  cout : List CppString
  status : Int
  deriving DecidableEq, Repr

deriving instance DecidableEq for Except

/-- The loop `while (getline(infile, line)) { ... }` of `readCodeFile` over the
lines still to be read. -/
def readLines : List CppString → Table → Except Exit Table
  | [], myMap => .ok myMap
  | line :: rest, myMap =>
    if malformed line then
      .error { cout := [illegalLine line], status := 0 }
    else
      let code := toUpperCase (line.take 3)
      readLines rest (emplace code (line.drop 4) myMap)

/-- The function `readCodeFile(filename, myMap)`.  `file` is the data file:
`none` when `infile.open` fails, otherwise its lines. -/
def readCodeFile (file : Option (List CppString)) (myMap : Table) : Except Exit Table :=
  match file with
  | none => .error { cout := [cantRead], status := 0 }
  | some lines => readLines lines myMap

/-- The state of the query loop of `main`; `finds` records the keys passed to
`airportCodes.find`, in order. -/
structure LoopState where
  airportCodes : Table
  cin : List CppString
  cout : List CppString
  finds : List CppString
  deriving DecidableEq, Repr

/-- The loop `while (true) { ... }` of `main`.  The last argument is the unread
standard input; `cout` and `finds` are what was written and looked up so far. -/
def queryLoop (airportCodes : Table) (cout finds : List CppString) :
    List CppString → LoopState
  | [] =>
    -- `getline` fails and leaves `line` empty
    { airportCodes := airportCodes, cin := [], cout := cout ++ [prompt], finds := finds }
  | line :: cin =>
    if line = [] then
      { airportCodes := airportCodes, cin := cin, cout := cout ++ [prompt], finds := finds }
    else
      let code := toUpperCase line
      match find code airportCodes with
      | some _ =>
        let r := subscript code airportCodes
        queryLoop r.2 (cout ++ [prompt, isIn code r.1]) (finds ++ [code]) cin
      | none =>
        queryLoop airportCodes (cout ++ [prompt, noSuchCode]) (finds ++ [code]) cin

/-- A finished run of the program. -/
structure Run where
  cout : List CppString
  cin : List CppString
  finds : List CppString
  status : Int
  deriving DecidableEq, Repr

/-- The function `main`, run on the data file `file` and the standard input
`cin`. -/
def main (file : Option (List CppString)) (cin : List CppString) : Run :=
  match readCodeFile file [] with
  | .error e => { cout := e.cout, cin := cin, finds := [], status := e.status }
  | .ok airportCodes =>
    let s := queryLoop airportCodes [] [] cin
    { cout := s.cout, cin := s.cin, finds := s.finds, status := 0 }

/-- The whole text on standard output. -/
def text (cout : List CppString) : CppString := cout.flatten

/-- What the body of the query loop writes after the prompt for the line `q`
read from standard input (lines 30 to 35 of the source, on the table `t`). -/
def answer (t : Table) (q : CppString) : CppString :=
  match find (toUpperCase q) t with
  | some city => isIn (toUpperCase q) city
  | none => noSuchCode

/-- The lines of standard input that the query loop answers: those before the
first empty line. -/
def queries (cin : List CppString) : List CppString :=
  cin.takeWhile (fun l => decide (l ≠ []))

/-- The lines of standard input that the query loop leaves unread: those after the
first empty line. -/
def unread (cin : List CppString) : List CppString :=
  (cin.dropWhile (fun l => decide (l ≠ []))).drop 1

/-! ## Characters and `toUpperCase` -/

theorem toNat_inj {a b : Char} (h : a.toNat = b.toNat) : a = b := by
  have := congrArg Char.ofNat h
  simpa using this

theorem toSizeT_ofNat {n : Nat} (h : n < 18446744073709551616) : toSizeT (n : Int) = n := by
  unfold toSizeT; omega

theorem intWrap_succ {n : Nat} (h : n + 1 < 2147483648) : intWrap ((n : Int) + 1) = ((n + 1 : Nat) : Int) := by
  unfold intWrap; omega

theorem intWrap_max : intWrap ((2147483647 : Nat) + 1) = -2147483648 := by
  decide

theorem toSizeT_min : toSizeT (-2147483648) = 18446744071562067968 := by
  decide

theorem toUpperCaseLoop_length : ∀ (fuel : Nat) (i : Int) (str : CppString),
    (toUpperCaseLoop fuel i str).length = str.length := by
  intro fuel
  induction fuel with
  | zero => intro i str; rfl
  | succ f ih =>
    intro i str
    simp only [toUpperCaseLoop]
    split_ifs
    · rw [ih, List.length_set]
    · rfl

theorem toUpperCaseLoop_wrapped (fuel : Nat) (str : CppString)
    (h : str.length ≤ 18446744071562067968) :
    toUpperCaseLoop fuel (-2147483648) str = str := by
  cases fuel with
  | zero => rfl
  | succ f =>
    have : ¬ (toSizeT (-2147483648) < str.length) := by rw [toSizeT_min]; omega
    simp only [toUpperCaseLoop, if_neg this]

theorem toUpperCaseLoop_append (rest : CppString) :
    ∀ (fuel : Nat) (pre : CppString), rest.length ≤ fuel → pre.length < 2147483648 →
      pre.length + rest.length ≤ 18446744071562067968 →
      toUpperCaseLoop fuel (pre.length : Int) (pre ++ rest)
        = pre ++ (rest.take (2147483648 - pre.length)).map toupper
            ++ rest.drop (2147483648 - pre.length) := by
  induction rest with
  | nil =>
    intro fuel pre _ hpre _
    have hs := toSizeT_ofNat (n := pre.length) (by omega)
    cases fuel <;> simp [toUpperCaseLoop, hs]
  | cons c r ih =>
    intro fuel pre h hpre hlen
    cases fuel with
    | zero => simp at h
    | succ f =>
      have hf : r.length ≤ f := by simpa using h
      have hs := toSizeT_ofNat (n := pre.length) (by omega)
      have hlen2 : (c :: r).length = r.length + 1 := rfl
      have hk : 2147483648 - pre.length = (2147483648 - (pre.length + 1)) + 1 := by omega
      have hstep : toUpperCaseLoop (f + 1) (pre.length : Int) (pre ++ c :: r)
          = toUpperCaseLoop f (intWrap ((pre.length : Int) + 1)) (pre ++ toupper c :: r) := by
        simp [toUpperCaseLoop, hs, List.getElem_append_right]
      rw [hstep, hk, List.take_succ_cons, List.drop_succ_cons, List.map_cons]
      by_cases hmax : pre.length + 1 < 2147483648
      · rw [intWrap_succ hmax]
        have := ih f (pre ++ [toupper c]) hf (by simpa using hmax)
          (by simp only [List.length_append, List.length_cons, List.length_nil]; rw [hlen2] at hlen; omega)
        simp only [List.length_append, List.length_cons, List.length_nil, List.append_assoc,
          List.singleton_append, Nat.zero_add] at this
        simp only [List.append_assoc, List.cons_append]
        exact this
      · have hp : pre.length = 2147483647 := by omega
        rw [hp, intWrap_max, toUpperCaseLoop_wrapped]
        · simp
        · simp only [List.length_append, List.length_cons]; rw [hlen2] at hlen; omega

/-- What the loop computes: the first 2147483648 characters go through `toupper`,
the characters after them, which the counter never reaches, stay as they are. -/
theorem toUpperCase_eq (str : CppString) (h : str.length ≤ 18446744071562067968) :
    toUpperCase str = (str.take 2147483648).map toupper ++ str.drop 2147483648 := by
  have := toUpperCaseLoop_append str str.length [] (Nat.le_refl _) (by decide) (by simpa using h)
  simpa [toUpperCase] using this

theorem toUpperCase_eq_map {str : CppString} (h : str.length ≤ 2147483648) :
    toUpperCase str = str.map toupper := by
  rw [toUpperCase_eq str (by omega), List.take_of_length_le h, List.drop_of_length_le h,
    List.append_nil]

theorem toUpperCase_length (str : CppString) : (toUpperCase str).length = str.length :=
  toUpperCaseLoop_length _ _ _

theorem toUpperCase_eq_nil {str : CppString} : toUpperCase str = [] ↔ str = [] := by
  rw [← List.length_eq_zero, toUpperCase_length, List.length_eq_zero]

theorem toupper_of_lower {c : Char} (h : 97 ≤ c.toNat ∧ c.toNat ≤ 122) :
    (toupper c).toNat = c.toNat - 32 := by
  have hc : c = Char.ofNat c.toNat := (Char.ofNat_toNat c).symm
  obtain ⟨h1, h2⟩ := h
  generalize c.toNat = n at hc h1 h2
  subst hc
  interval_cases n <;> decide

theorem toupper_of_not_lower {c : Char} (h : ¬ (97 ≤ c.toNat ∧ c.toNat ≤ 122)) :
    toupper c = c := by
  simp only [toupper, if_neg h]

theorem toupper_not_lower (c : Char) :
    ¬ (97 ≤ (toupper c).toNat ∧ (toupper c).toNat ≤ 122) := by
  by_cases h : 97 ≤ c.toNat ∧ c.toNat ≤ 122
  · rw [toupper_of_lower h]; omega
  · rw [toupper_of_not_lower h]; exact h

/-! ## The order of strings -/

theorem strLt_irrefl (a : CppString) : strLt a a = false := by
  induction a with
  | nil => rfl
  | cons c r ih => simp [strLt, ih]

theorem strLt_trans : ∀ (a b c : CppString), strLt a b = true → strLt b c = true →
    strLt a c = true := by
  intro a
  induction a with
  | nil =>
    intro b c hab hbc
    cases b with
    | nil => simp [strLt] at hab
    | cons y ys =>
      cases c with
      | nil => simp [strLt] at hbc
      | cons z zs => simp [strLt]
  | cons x xs ih =>
    intro b c hab hbc
    cases b with
    | nil => simp [strLt] at hab
    | cons y ys =>
      cases c with
      | nil => simp [strLt] at hbc
      | cons z zs =>
        simp only [strLt] at hab hbc ⊢
        split_ifs at hab hbc ⊢ <;> first | rfl | omega | skip
        exact ih ys zs hab hbc

theorem strLt_asymm (a b : CppString) (h : strLt a b = true) : strLt b a = false := by
  cases hba : strLt b a with
  | false => rfl
  | true =>
    have := strLt_trans a b a h hba
    rw [strLt_irrefl] at this
    exact this.symm

theorem strLt_total : ∀ (a b : CppString), strLt a b = false → strLt b a = false → a = b := by
  intro a
  induction a with
  | nil =>
    intro b hab _
    cases b with
    | nil => rfl
    | cons y ys => simp [strLt] at hab
  | cons x xs ih =>
    intro b hab hba
    cases b with
    | nil => simp [strLt] at hba
    | cons y ys =>
      simp only [strLt] at hab hba
      split_ifs at hab hba
      have hxy : x = y := toNat_inj (by omega)
      rw [hxy, ih ys hab hba]

/-! ## The map operations -/

theorem find_emplace_self (k v : CppString) (m : Table) :
    find k (emplace k v m) = some ((find k m).getD v) := by
  induction m with
  | nil => simp [emplace, find, strLt_irrefl]
  | cons p m ih =>
    obtain ⟨k', v'⟩ := p
    by_cases h1 : strLt k' k = true
    · simp [emplace, find, h1, ih]
    · by_cases h2 : strLt k k' = true
      · simp [emplace, find, h1, h2, strLt_irrefl]
      · simp [emplace, find, h1, h2]

theorem find_emplace_ne {k k' : CppString} (v : CppString) (m : Table) (hne : k ≠ k') :
    find k (emplace k' v m) = find k m := by
  induction m with
  | nil =>
    by_cases h1 : strLt k' k = true
    · simp [emplace, find, h1]
    · by_cases h2 : strLt k k' = true
      · simp [emplace, find, h1, h2]
      · exact absurd (strLt_total k k' (by simpa using h2) (by simpa using h1)) hne
  | cons p m ih =>
    obtain ⟨k2, v2⟩ := p
    by_cases h1 : strLt k2 k' = true
    · simp [emplace, find, h1, ih]
    · by_cases h2 : strLt k' k2 = true
      · simp only [emplace, h1, h2, if_true, if_false, Bool.false_eq_true]
        by_cases h3 : strLt k' k = true
        · simp [find, h3]
        · by_cases h4 : strLt k k' = true
          · have h5 : strLt k k2 = true := strLt_trans k k' k2 h4 h2
            have h6 : strLt k2 k = false := strLt_asymm k k2 h5
            simp [find, h3, h4, h5, h6]
          · exact absurd (strLt_total k k' (by simpa using h4) (by simpa using h3)) hne
      · simp [emplace, h1, h2]

theorem find_emplace (k k' v : CppString) (m : Table) :
    find k (emplace k' v m) = if k = k' then some ((find k m).getD v) else find k m := by
  by_cases h : k = k'
  · subst h; simp [find_emplace_self]
  · simp [h, find_emplace_ne v m h]

theorem emplace_of_find {k v' : CppString} (v : CppString) {m : Table}
    (h : find k m = some v') : emplace k v m = m := by
  induction m with
  | nil => simp [find] at h
  | cons p m ih =>
    obtain ⟨k2, v2⟩ := p
    by_cases h1 : strLt k2 k = true
    · simp only [find, h1, if_true] at h
      simp [emplace, h1, ih h]
    · by_cases h2 : strLt k k2 = true
      · simp [find, h1, h2] at h
      · simp [emplace, h1, h2]

theorem mem_of_find {k v : CppString} {m : Table} (h : find k m = some v) : (k, v) ∈ m := by
  induction m with
  | nil => simp [find] at h
  | cons p m ih =>
    obtain ⟨k2, v2⟩ := p
    by_cases h1 : strLt k2 k = true
    · simp only [find, h1, if_true] at h
      exact List.mem_cons_of_mem _ (ih h)
    · by_cases h2 : strLt k k2 = true
      · simp [find, h1, h2] at h
      · have hk : k = k2 := strLt_total k k2 (by simpa using h2) (by simpa using h1)
        simp [find, h1, h2] at h
        simp [hk, h]

theorem mem_emplace {p : CppString × CppString} {k v : CppString} {m : Table}
    (h : p ∈ emplace k v m) : p ∈ m ∨ p = (k, v) := by
  induction m with
  | nil => simpa [emplace] using h
  | cons q m ih =>
    obtain ⟨k2, v2⟩ := q
    by_cases h1 : strLt k2 k = true
    · simp only [emplace, h1, if_true, List.mem_cons] at h
      rcases h with h | h
      · simp [h]
      · rcases ih h with h | h
        · simp [h]
        · simp [h]
    · by_cases h2 : strLt k k2 = true
      · simp only [emplace, h1, h2, if_true, if_false, List.mem_cons, Bool.false_eq_true] at h
        rcases h with h | h | h
        · simp [h]
        · simp [h]
        · simp [h]
      · simp only [emplace, h1, h2, if_false, Bool.false_eq_true] at h
        exact Or.inl h

theorem subscript_of_find {k v : CppString} {m : Table} (h : find k m = some v) :
    subscript k m = (v, m) := by
  simp [subscript, h]

/-! ## Loading the data file -/

theorem malformed_eq_false {l : CppString} :
    malformed l = false ↔ 4 ≤ l.length ∧ l.get? 3 = some '=' := by
  simp [malformed]

theorem malformed_eq_true {l : CppString} :
    malformed l = true ↔ (l.length < 4 ∨ l.get? 3 ≠ some '=') := by
  simp [malformed]

theorem readLines_cons_ok {line : CppString} (rest : List CppString) (m : Table)
    (h : malformed line = false) :
    readLines (line :: rest) m
      = readLines rest (emplace (toUpperCase (line.take 3)) (line.drop 4) m) := by
  simp [readLines, h]

theorem readLines_cons_bad {line : CppString} (rest : List CppString) (m : Table)
    (h : malformed line = true) :
    readLines (line :: rest) m = .error { cout := [illegalLine line], status := 0 } := by
  simp [readLines, h]

theorem readLines_wf {lines : List CppString} :
    ∀ {m t : Table}, readLines lines m = .ok t → ∀ l ∈ lines, malformed l = false := by
  induction lines with
  | nil => intro m t _ l hl; simp at hl
  | cons line rest ih =>
    intro m t h l hl
    cases hm : malformed line with
    | true => rw [readLines_cons_bad rest m hm] at h; cases h
    | false =>
      rw [readLines_cons_ok rest m hm] at h
      rcases List.mem_cons.mp hl with rfl | hl
      · exact hm
      · exact ih h l hl

theorem readLines_ok_of_wf {lines : List CppString} :
    ∀ (m : Table), (∀ l ∈ lines, malformed l = false) → ∃ t, readLines lines m = .ok t := by
  induction lines with
  | nil => intro m _; exact ⟨m, rfl⟩
  | cons line rest ih =>
    intro m h
    rw [readLines_cons_ok rest m (h line (List.mem_cons_self _ _))]
    exact ih _ (fun l hl => h l (List.mem_cons_of_mem _ hl))

theorem readLines_first_bad {pre : List CppString} (bad : CppString) (post : List CppString) :
    ∀ (m : Table), (∀ l ∈ pre, malformed l = false) → malformed bad = true →
      readLines (pre ++ bad :: post) m = .error { cout := [illegalLine bad], status := 0 } := by
  induction pre with
  | nil => intro m _ hb; exact readLines_cons_bad post m hb
  | cons line rest ih =>
    intro m h hb
    rw [List.cons_append, readLines_cons_ok _ m (h line (List.mem_cons_self _ _))]
    exact ih _ (fun l hl => h l (List.mem_cons_of_mem _ hl)) hb

theorem readLines_append {pre : List CppString} (post : List CppString) :
    ∀ {m t : Table}, readLines pre m = .ok t → readLines (pre ++ post) m = readLines post t := by
  induction pre with
  | nil => intro m t h; cases h; rfl
  | cons line rest ih =>
    intro m t h
    cases hm : malformed line with
    | true => rw [readLines_cons_bad rest m hm] at h; cases h
    | false =>
      rw [readLines_cons_ok rest m hm] at h
      rw [List.cons_append, readLines_cons_ok _ m hm]
      exact ih h

/-- The value found under `k` after loading: the one already in the map, else the
rest of the first line whose code is `k`. -/
theorem readLines_find {lines : List CppString} (k : CppString) :
    ∀ {m t : Table}, readLines lines m = .ok t →
      find k t = match find k m with
        | some v => some v
        | none => (lines.find? (fun l => decide (toUpperCase (l.take 3) = k))).map (List.drop 4) := by
  induction lines with
  | nil =>
    intro m t h
    cases h
    cases find k m <;> rfl
  | cons line rest ih =>
    intro m t h
    cases hm : malformed line with
    | true => rw [readLines_cons_bad rest m hm] at h; cases h
    | false =>
      rw [readLines_cons_ok rest m hm] at h
      rw [ih h, find_emplace]
      by_cases hk : k = toUpperCase (line.take 3)
      · subst hk
        cases hf : find (toUpperCase (line.take 3)) m <;> simp [List.find?]
      · have hk2 : ¬ toUpperCase (line.take 3) = k := fun e => hk e.symm
        simp [hk, hk2, List.find?]

theorem readLines_mem {lines : List CppString} :
    ∀ {m t : Table}, readLines lines m = .ok t → ∀ p ∈ t,
      p ∈ m ∨ ∃ l ∈ lines, p = (toUpperCase (l.take 3), l.drop 4) := by
  induction lines with
  | nil => intro m t h p hp; cases h; exact Or.inl hp
  | cons line rest ih =>
    intro m t h p hp
    cases hm : malformed line with
    | true => rw [readLines_cons_bad rest m hm] at h; cases h
    | false =>
      rw [readLines_cons_ok rest m hm] at h
      rcases ih h p hp with h1 | ⟨l, hl, h1⟩
      · rcases mem_emplace h1 with h2 | h2
        · exact Or.inl h2
        · exact Or.inr ⟨line, List.mem_cons_self _ _, h2⟩
      · exact Or.inr ⟨l, List.mem_cons_of_mem _ hl, h1⟩

/-! ## The query loop -/

theorem queryLoop_nil (t : Table) (cout finds : List CppString) :
    queryLoop t cout finds []
      = { airportCodes := t, cin := [], cout := cout ++ [prompt], finds := finds } := rfl

theorem queryLoop_empty (t : Table) (cout finds rest : List CppString) :
    queryLoop t cout finds ([] :: rest)
      = { airportCodes := t, cin := rest, cout := cout ++ [prompt], finds := finds } := by
  simp [queryLoop]

/-- One turn of the loop on a non-empty line: the prompt and the answer are
written, the key is looked up, the table is as before. -/
theorem queryLoop_cons (t : Table) (cout finds : List CppString) {q : CppString}
    (rest : List CppString) (hq : q ≠ []) :
    queryLoop t cout finds (q :: rest)
      = queryLoop t (cout ++ [prompt, answer t q]) (finds ++ [toUpperCase q]) rest := by
  cases hf : find (toUpperCase q) t with
  | none => simp [queryLoop, hq, hf, answer]
  | some city => simp [queryLoop, hq, hf, answer, subscript]

theorem queryLoop_eq (t : Table) (cin : List CppString) :
    ∀ (cout finds : List CppString), queryLoop t cout finds cin
      = { airportCodes := t
          cin := unread cin
          cout := cout ++ ((queries cin).flatMap (fun q => [prompt, answer t q]) ++ [prompt])
          finds := finds ++ (queries cin).map toUpperCase } := by
  induction cin with
  | nil => intro cout finds; simp [queryLoop_nil, queries, unread]
  | cons q rest ih =>
    intro cout finds
    by_cases hq : q = []
    · subst hq
      simp [queryLoop_empty, queries, unread]
    · rw [queryLoop_cons t cout finds rest hq, ih]
      simp [queries, unread, hq, List.flatMap]

theorem isIn_ne_prompt (code city : CppString) : isIn code city ≠ prompt := by
  intro h
  have h0 : isIn code city = (code ++ " is in ".toList ++ city) ++ [Char.ofNat 10] := rfl
  have h1 : (isIn code city).getLast? = some (Char.ofNat 10) := by
    rw [h0, List.getLast?_concat]
  have h2 : prompt.getLast? = some ' ' := by decide
  rw [h, h2] at h1
  exact absurd (Option.some.inj h1) (by decide)

theorem answer_ne_prompt (t : Table) (q : CppString) : answer t q ≠ prompt := by
  unfold answer
  cases find (toUpperCase q) t with
  | none => show noSuchCode ≠ prompt; decide
  | some city => exact isIn_ne_prompt _ _

theorem illegalLine_ne_prompt (l : CppString) : illegalLine l ≠ prompt := by
  intro h
  have h1 : (illegalLine l).head? = some 'I' := rfl
  have h2 : prompt.head? = some 'A' := rfl
  rw [h, h2] at h1
  exact absurd (Option.some.inj h1) (by decide)

theorem count_prompt (t : Table) (qs : List CppString) :
    (qs.flatMap (fun q => [prompt, answer t q])).count prompt = qs.length := by
  induction qs with
  | nil => rfl
  | cons q r ih =>
    have hne : ¬ (answer t q = prompt) := answer_ne_prompt t q
    simp only [List.flatMap_cons, List.count_append, ih]
    simp [List.count_cons, hne]
    omega

/-! ## Further facts on loading -/

theorem readLines_error {lines : List CppString} :
    ∀ {m : Table} {e : Exit}, readLines lines m = .error e →
      ∃ pre bad post, lines = pre ++ bad :: post ∧ (∀ l ∈ pre, malformed l = false) ∧
        malformed bad = true ∧ e = { cout := [illegalLine bad], status := 0 } := by
  induction lines with
  | nil => intro m e h; cases h
  | cons line rest ih =>
    intro m e h
    cases hm : malformed line with
    | true =>
      rw [readLines_cons_bad rest m hm] at h
      cases h
      exact ⟨[], line, rest, rfl, by simp, hm, rfl⟩
    | false =>
      rw [readLines_cons_ok rest m hm] at h
      obtain ⟨pre, bad, post, h1, h2, h3, h4⟩ := ih h
      refine ⟨line :: pre, bad, post, by simp [h1], ?_, h3, h4⟩
      intro l hl
      rcases List.mem_cons.mp hl with rfl | hl
      · exact hm
      · exact h2 l hl

theorem readLines_error_of_mem {lines : List CppString} (m : Table) {l : CppString}
    (hl : l ∈ lines) (hbad : malformed l = true) : ∃ e, readLines lines m = .error e := by
  cases h : readLines lines m with
  | error e => exact ⟨e, rfl⟩
  | ok t =>
    have := readLines_wf h l hl
    rw [hbad] at this
    cases this

theorem find?_first {α : Type} (p : α → Bool) (pre : List α) (l : α) (post : List α)
    (hpre : ∀ x ∈ pre, p x = false) (hl : p l = true) :
    (pre ++ l :: post).find? p = some l := by
  induction pre with
  | nil => simp [List.find?, hl]
  | cons x r ih =>
    have hx : p x = false := hpre x (List.mem_cons_self _ _)
    simp only [List.cons_append, List.find?, hx]
    exact ih (fun y hy => hpre y (List.mem_cons_of_mem _ hy))

/-! ## The claims -/

/-- C1, as stated, fails: in the well-formed file with the lines `JFK=A` and `JFK=B`
the table maps `JFK` to `A`, not to the rest `B` of the second line.  Hence it is
not true that the table maps the code of every line to the rest of that line. -/
theorem C1_counterexample_duplicate_code :
    (readCodeFile (some ["JFK=A".toList, "JFK=B".toList]) []
        = .ok [("JFK".toList, "A".toList)]) ∧
    ¬ (∀ lines : List CppString, (∀ l ∈ lines, 4 ≤ l.length ∧ l.get? 3 = some '=') →
        ∃ t, readCodeFile (some lines) [] = .ok t ∧
          ∀ l ∈ lines, find (toUpperCase (l.take 3)) t = some (l.drop 4)) := by
  refine ⟨by decide, ?_⟩
  intro h
  obtain ⟨t, ht, hall⟩ := h ["JFK=A".toList, "JFK=B".toList] (by decide)
  have h0 : readCodeFile (some ["JFK=A".toList, "JFK=B".toList]) []
      = .ok [("JFK".toList, "A".toList)] := by decide
  rw [h0] at ht
  cases ht
  have := hall "JFK=B".toList (by decide)
  revert this
  decide

/-- C1, amended: for every file in which every line has length at least 4 and `=`
at index 3, `readCodeFile` succeeds, and for every line of the file that no
earlier line shares its uppercased code with, the table maps the uppercased
first three characters of the line to exactly the rest of the line from index 4
on (the empty string when the line has length 4). -/
theorem C1_first_line_of_a_code_is_stored (lines : List CppString)
    (hwf : ∀ l ∈ lines, 4 ≤ l.length ∧ l.get? 3 = some '=') :
    ∃ t, readCodeFile (some lines) [] = .ok t ∧
      ∀ pre l post, lines = pre ++ l :: post →
        (∀ e ∈ pre, toUpperCase (e.take 3) ≠ toUpperCase (l.take 3)) →
        find (toUpperCase (l.take 3)) t = some (l.drop 4) := by
  obtain ⟨t, ht⟩ := readLines_ok_of_wf []
    (fun l hl => malformed_eq_false.mpr (hwf l hl))
  refine ⟨t, ht, ?_⟩
  intro pre l post hsplit hpre
  have hfind := readLines_find (toUpperCase (l.take 3)) ht
  simp only [find] at hfind
  rw [hfind, hsplit, find?_first _ pre l post (by simpa using hpre) (by simp)]
  rfl

/-- C1, at a concrete file: three lines with distinct codes, one of them of length
exactly 4. -/
theorem C1_first_line_of_a_code_is_stored_witness :
    (∀ l ∈ ["JFK=New York".toList, "lax=Los Angeles".toList, "Abc=".toList],
        4 ≤ l.length ∧ l.get? 3 = some '=') ∧
    ∃ t, readCodeFile (some ["JFK=New York".toList, "lax=Los Angeles".toList, "Abc=".toList]) []
        = .ok t ∧
      ∀ pre l post,
        ["JFK=New York".toList, "lax=Los Angeles".toList, "Abc=".toList] = pre ++ l :: post →
        (∀ e ∈ pre, toUpperCase (e.take 3) ≠ toUpperCase (l.take 3)) →
        find (toUpperCase (l.take 3)) t = some (l.drop 4) :=
  ⟨by decide, C1_first_line_of_a_code_is_stored _ (by decide)⟩

/-- C2: for a file that can be opened, `readCodeFile` ends the process if and only
if some line has length below 4 or something other than `=` at index 3; a blank
line is such a line; and when it ends the process there is no table, `main`
writes only the diagnostic, never the prompt, looks nothing up and reads no line
of standard input. -/
theorem C2_readCodeFile_fails_iff_malformed (lines : List CppString) :
    ((∃ e, readCodeFile (some lines) [] = .error e) ↔
        ∃ l ∈ lines, l.length < 4 ∨ l.get? 3 ≠ some '=') ∧
    ([] ∈ lines → ∃ e, readCodeFile (some lines) [] = .error e) ∧
    (∀ e, readCodeFile (some lines) [] = .error e →
      (∀ t, readCodeFile (some lines) [] ≠ .ok t) ∧
      ∀ cin, (main (some lines) cin).cout = e.cout ∧
        prompt ∉ (main (some lines) cin).cout ∧
        (main (some lines) cin).finds = [] ∧
        (main (some lines) cin).cin = cin) := by
  refine ⟨⟨?_, ?_⟩, ?_, ?_⟩
  · rintro ⟨e, he⟩
    obtain ⟨pre, bad, post, h1, _, h3, _⟩ := readLines_error he
    exact ⟨bad, by simp [h1], malformed_eq_true.mp h3⟩
  · rintro ⟨l, hl, hbad⟩
    exact readLines_error_of_mem [] hl (malformed_eq_true.mpr hbad)
  · intro hl
    exact readLines_error_of_mem [] hl (by decide)
  · intro e he
    refine ⟨fun t ht => (by rw [he] at ht; cases ht), ?_⟩
    intro cin
    obtain ⟨pre, bad, post, _, _, _, h4⟩ := readLines_error he
    have hmain : main (some lines) cin
        = { cout := e.cout, cin := cin, finds := [], status := e.status } := by
      simp [main, he]
    rw [hmain]
    refine ⟨rfl, ?_, rfl, rfl⟩
    subst h4
    simpa using fun h => illegalLine_ne_prompt bad h.symm

/-- C2, at a concrete file whose second line is blank: loading fails and the run
writes the diagnostic only. -/
theorem C2_readCodeFile_fails_iff_malformed_witness :
    (∃ e, readCodeFile (some ["JFK=New York".toList, []]) [] = .error e) ∧
    (main (some ["JFK=New York".toList, []]) ["JFK".toList]).cout
      = ({ cout := [illegalLine []], status := 0 } : Exit).cout ∧
    prompt ∉ (main (some ["JFK=New York".toList, []]) ["JFK".toList]).cout ∧
    (main (some ["JFK=New York".toList, []]) ["JFK".toList]).finds = [] ∧
    (main (some ["JFK=New York".toList, []]) ["JFK".toList]).cin = ["JFK".toList] :=
  ⟨(C2_readCodeFile_fails_iff_malformed ["JFK=New York".toList, []]).2.1 (by decide),
   ((C2_readCodeFile_fails_iff_malformed ["JFK=New York".toList, []]).2.2
      { cout := [illegalLine []], status := 0 } (by decide)).2 ["JFK".toList]⟩

/-! ### The query loop: C3 to C6 -/

theorem queryLoop_cout (t : Table) (cin cout finds : List CppString) :
    (queryLoop t cout finds cin).cout = cout ++ (queryLoop t [] [] cin).cout := by
  rw [queryLoop_eq t cin cout finds, queryLoop_eq t cin [] []]
  simp

theorem answer_of_find {t : Table} {q city : CppString}
    (h : find (toUpperCase q) t = some city) :
    answer t q = toUpperCase q ++ " is in ".toList ++ city ++ "\n".toList := by
  simp [answer, h, isIn]

theorem answer_of_not_find {t : Table} {q : CppString}
    (h : find (toUpperCase q) t = none) :
    answer t q = "There is no such airport code\n".toList := by
  simp [answer, h, noSuchCode]

theorem main_of_ok {file : Option (List CppString)} {t : Table}
    (h : readCodeFile file [] = .ok t) (cin : List CppString) :
    main file cin
      = { cout := (queryLoop t [] [] cin).cout, cin := (queryLoop t [] [] cin).cin,
          finds := (queryLoop t [] [] cin).finds, status := 0 } := by
  simp [main, h]

theorem queries_split (cin : List CppString) :
    [] ∉ queries cin ∧
      ((cin = queries cin ∧ unread cin = []) ∨ cin = queries cin ++ [] :: unread cin) := by
  induction cin with
  | nil => simp [queries, unread]
  | cons q rest ih =>
    by_cases hq : q = []
    · subst hq
      simp [queries, unread]
    · obtain ⟨h1, h2⟩ := ih
      have hq2 : ¬ ([] = q) := fun e => hq e.symm
      refine ⟨by simpa [queries, hq, hq2] using h1, ?_⟩
      rcases h2 with ⟨h2, h3⟩ | h2
      · left
        refine ⟨?_, by simpa [unread, hq] using h3⟩
        simp only [queries, List.takeWhile_cons, hq, ne_eq, not_false_eq_true, decide_True,
          if_true, List.cons.injEq, true_and]
        exact h2
      · right
        simp only [queries, unread, List.takeWhile_cons, List.dropWhile_cons, hq, ne_eq,
          not_false_eq_true, decide_True, if_true, List.cons_append, List.cons.injEq, true_and]
        exact h2

/-- C3: for every table and every non-empty line `q` whose uppercased form `U` is
a key with value `City`, the loop writes the prompt, then exactly
`U is in City` and a newline, and goes on with the rest of the input. -/
theorem C3_found_response (t : Table) (q city : CppString) (rest : List CppString)
    (hq : q ≠ []) (hfind : find (toUpperCase q) t = some city) :
    (queryLoop t [] [] (q :: rest)).cout
      = prompt :: (toUpperCase q ++ " is in ".toList ++ city ++ "\n".toList)
          :: (queryLoop t [] [] rest).cout := by
  rw [queryLoop_cons t [] [] rest hq, queryLoop_cout, answer_of_find hfind]
  rfl

/-- C3, at the table loaded from `JFK=New York` and `LAX=Los Angeles`: the query
`JFK` is answered with `JFK is in New York`. -/
theorem C3_found_response_witness :
    (readCodeFile (some ["JFK=New York".toList, "LAX=Los Angeles".toList]) []
      = .ok [("JFK".toList, "New York".toList), ("LAX".toList, "Los Angeles".toList)]) ∧
    (main (some ["JFK=New York".toList, "LAX=Los Angeles".toList]) ["JFK".toList]).cout
      = [prompt, "JFK is in New York\n".toList, prompt] ∧
    "JFK".toList ≠ [] ∧
    find (toUpperCase "JFK".toList)
        [("JFK".toList, "New York".toList), ("LAX".toList, "Los Angeles".toList)]
      = some "New York".toList ∧
    (queryLoop [("JFK".toList, "New York".toList), ("LAX".toList, "Los Angeles".toList)] [] []
        ["JFK".toList]).cout
      = prompt :: (toUpperCase "JFK".toList ++ " is in ".toList ++ "New York".toList ++ "\n".toList)
          :: (queryLoop [("JFK".toList, "New York".toList), ("LAX".toList, "Los Angeles".toList)]
                [] [] []).cout :=
  ⟨by decide, by decide, by decide, by decide,
   C3_found_response _ "JFK".toList "New York".toList [] (by decide) (by decide)⟩

/-- C4: for every table and every non-empty line `q` whose uppercased form is not
a key, the loop writes the prompt, then exactly `There is no such airport code`
and a newline, leaves the table as it is and goes on with the rest of the input
as it would have from the start; a following non-empty line is prompted for and
answered, and a run of `main` with that table still ends with status 0. -/
theorem C4_missing_code_response (t : Table) (q : CppString) (rest : List CppString)
    (hq : q ≠ []) (hfind : find (toUpperCase q) t = none) :
    (queryLoop t [] [] (q :: rest)).cout
      = prompt :: "There is no such airport code\n".toList :: (queryLoop t [] [] rest).cout ∧
    (queryLoop t [] [] (q :: rest)).cin = (queryLoop t [] [] rest).cin ∧
    (queryLoop t [] [] (q :: rest)).airportCodes = t ∧
    (∀ q2 rest2, rest = q2 :: rest2 → q2 ≠ [] →
      (queryLoop t [] [] (q :: rest)).cout
        = prompt :: "There is no such airport code\n".toList :: prompt :: answer t q2
            :: (queryLoop t [] [] rest2).cout) ∧
    (∀ file, readCodeFile file [] = .ok t →
      (main file (q :: rest)).status = 0 ∧
      (main file (q :: rest)).cout
        = prompt :: "There is no such airport code\n".toList :: (main file rest).cout) := by
  have hcout : (queryLoop t [] [] (q :: rest)).cout
      = prompt :: "There is no such airport code\n".toList :: (queryLoop t [] [] rest).cout := by
    rw [queryLoop_cons t [] [] rest hq, queryLoop_cout, answer_of_not_find hfind]
    rfl
  refine ⟨hcout, ?_, ?_, ?_, ?_⟩
  · rw [queryLoop_eq t (q :: rest), queryLoop_eq t rest]
    simp [unread, hq]
  · rw [queryLoop_eq t (q :: rest)]
  · intro q2 rest2 hrest hq2
    rw [hcout, hrest, queryLoop_cons t [] [] rest2 hq2, queryLoop_cout]
    rfl
  · intro file hfile
    rw [main_of_ok hfile, main_of_ok hfile]
    exact ⟨rfl, hcout⟩

/-- C4, at the table loaded from `JFK=New York`: the query `xyz` is answered with
the message, and the query `JFK` after it is still answered. -/
theorem C4_missing_code_response_witness :
    "xyz".toList ≠ [] ∧
    find (toUpperCase "xyz".toList) [("JFK".toList, "New York".toList)] = none ∧
    (queryLoop [("JFK".toList, "New York".toList)] [] [] ["xyz".toList, "JFK".toList]).cout
      = [prompt, "There is no such airport code\n".toList, prompt,
          "JFK is in New York\n".toList, prompt] ∧
    (queryLoop [("JFK".toList, "New York".toList)] [] [] ("xyz".toList :: ["JFK".toList])).cout
      = prompt :: "There is no such airport code\n".toList
          :: (queryLoop [("JFK".toList, "New York".toList)] [] [] ["JFK".toList]).cout :=
  ⟨by decide, by decide, by decide,
   (C4_missing_code_response [("JFK".toList, "New York".toList)] "xyz".toList ["JFK".toList]
      (by decide) (by decide)).1⟩

/-- C5: two input lines with the same uppercased form are treated alike by the
query loop: the whole run (output, lookups, table, input left) is the same. -/
theorem C5_case_insensitive (t : Table) (q1 q2 : CppString) (rest cout finds : List CppString)
    (h : toUpperCase q1 = toUpperCase q2) :
    queryLoop t cout finds (q1 :: rest) = queryLoop t cout finds (q2 :: rest) := by
  by_cases hq : q1 = []
  · have hq2 : q2 = [] := by
      rw [← toUpperCase_eq_nil, ← h, toUpperCase_eq_nil]; exact hq
    rw [hq, hq2]
  · have hq2 : q2 ≠ [] := by
      intro e
      rw [← toUpperCase_eq_nil, h, toUpperCase_eq_nil] at hq
      exact hq e
    rw [queryLoop_cons t cout finds rest hq, queryLoop_cons t cout finds rest hq2]
    simp only [answer, h]

/-- C5, at the table loaded from `JFK=New York`: `jfk` and `JFK` are both answered
with `JFK is in New York`. -/
theorem C5_case_insensitive_witness :
    (readCodeFile (some ["JFK=New York".toList]) [] = .ok [("JFK".toList, "New York".toList)]) ∧
    (queryLoop [("JFK".toList, "New York".toList)] [] [] ["jfk".toList]).cout
      = [prompt, "JFK is in New York\n".toList, prompt] ∧
    (queryLoop [("JFK".toList, "New York".toList)] [] [] ["JFK".toList]).cout
      = [prompt, "JFK is in New York\n".toList, prompt] ∧
    toUpperCase "jfk".toList = toUpperCase "JFK".toList ∧
    queryLoop [("JFK".toList, "New York".toList)] [] [] ("jfk".toList :: [])
      = queryLoop [("JFK".toList, "New York".toList)] [] [] ("JFK".toList :: []) :=
  ⟨by decide, by decide, by decide, by decide,
   C5_case_insensitive _ "jfk".toList "JFK".toList [] [] [] (by decide)⟩

theorem length_turns (t : Table) (qs : List CppString) :
    (qs.flatMap (fun q => [prompt, answer t q])).length = qs.length + qs.length := by
  induction qs with
  | nil => rfl
  | cons q r ih =>
    simp only [List.flatMap_cons, List.length_append, ih, List.length_cons, List.length_nil]
    omega

/-- C6: for every table and every standard input, the lines answered (`queries`)
are the lines before the first empty line, none of them empty; the output is,
for each of them in order, the prompt and the answer, and then one last prompt;
the keys looked up are those lines uppercased, nothing else; the input left
unread is what follows the first empty line; there is one prompt more than
there are answers; and `main` returns 0. -/
theorem C6_query_loop_shape (t : Table) (cin : List CppString) :
    ([] ∉ queries cin ∧
      ((cin = queries cin ∧ unread cin = []) ∨ cin = queries cin ++ [] :: unread cin)) ∧
    (queryLoop t [] [] cin).cout
      = (queries cin).flatMap (fun q => [prompt, answer t q]) ++ [prompt] ∧
    (queryLoop t [] [] cin).finds = (queries cin).map toUpperCase ∧
    (queryLoop t [] [] cin).cin = unread cin ∧
    (queryLoop t [] [] cin).cout.count prompt = (queries cin).length + 1 ∧
    (queryLoop t [] [] cin).cout.length = (queries cin).length + ((queries cin).length + 1) ∧
    (∀ file, readCodeFile file [] = .ok t →
      main file cin
        = { cout := (queries cin).flatMap (fun q => [prompt, answer t q]) ++ [prompt]
            cin := unread cin
            finds := (queries cin).map toUpperCase
            status := 0 }) := by
  have heq := queryLoop_eq t cin [] []
  simp only [List.nil_append] at heq
  refine ⟨queries_split cin, ?_, ?_, ?_, ?_, ?_, ?_⟩
  · rw [heq]
  · rw [heq]
  · rw [heq]
  · rw [heq]
    simp [List.count_append, count_prompt]
  · rw [heq]
    simp only [List.length_append, length_turns, List.length_cons, List.length_nil]
    omega
  · intro file hfile
    rw [main_of_ok hfile, heq]

/-- C6, at the table loaded from `JFK=New York` and an input with an empty third
line: two answers, three prompts, and the line after the empty one is left. -/
theorem C6_query_loop_shape_witness :
    readCodeFile (some ["JFK=New York".toList]) [] = .ok [("JFK".toList, "New York".toList)] ∧
    main (some ["JFK=New York".toList]) ["jfk".toList, "LAX".toList, [], "JFK".toList]
      = { cout := [prompt, "JFK is in New York\n".toList, prompt,
                    "There is no such airport code\n".toList, prompt]
          cin := ["JFK".toList]
          finds := ["JFK".toList, "LAX".toList]
          status := 0 } ∧
    main (some ["JFK=New York".toList]) ["jfk".toList, "LAX".toList, [], "JFK".toList]
      = { cout := (queries ["jfk".toList, "LAX".toList, [], "JFK".toList]).flatMap
                    (fun q => [prompt, answer [("JFK".toList, "New York".toList)] q]) ++ [prompt]
          cin := unread ["jfk".toList, "LAX".toList, [], "JFK".toList]
          finds := (queries ["jfk".toList, "LAX".toList, [], "JFK".toList]).map toUpperCase
          status := 0 } :=
  ⟨by decide, by decide,
   (C6_query_loop_shape [("JFK".toList, "New York".toList)]
      ["jfk".toList, "LAX".toList, [], "JFK".toList]).2.2.2.2.2.2
      (some ["JFK=New York".toList]) (by decide)⟩

/-! ### The loaded table: C7 to C10 -/

theorem key_length {l : CppString} (h : malformed l = false) :
    (toUpperCase (l.take 3)).length = 3 := by
  have h4 := (malformed_eq_false.mp h).1
  rw [toUpperCase_length, List.length_take]
  omega

theorem toUpperCase_no_lower (s : CppString) (hs : s.length ≤ 2147483648) :
    ∀ c ∈ toUpperCase s, ¬ ('a'.toNat ≤ c.toNat ∧ c.toNat ≤ 'z'.toNat) := by
  intro c hc
  rw [toUpperCase_eq_map hs, List.mem_map] at hc
  obtain ⟨d, _, rfl⟩ := hc
  exact toupper_not_lower d

theorem loaded_entry {lines : List CppString} {t : Table}
    (h : readLines lines [] = .ok t) {p : CppString × CppString} (hp : p ∈ t) :
    ∃ l ∈ lines, malformed l = false ∧ p = (toUpperCase (l.take 3), l.drop 4) := by
  rcases readLines_mem h p hp with h1 | ⟨l, hl, h1⟩
  · simp at h1
  · exact ⟨l, hl, readLines_wf h l hl, h1⟩

theorem loaded_find {lines : List CppString} {t : Table}
    (h : readLines lines [] = .ok t) {l : CppString} (hl : l ∈ lines) :
    ∃ v, find (toUpperCase (l.take 3)) t = some v := by
  have hfind := readLines_find (toUpperCase (l.take 3)) h
  simp only [find] at hfind
  cases hf : lines.find? (fun e => decide (toUpperCase (e.take 3) = toUpperCase (l.take 3))) with
  | none =>
    rw [List.find?_eq_none] at hf
    exact absurd (by simp) (hf l hl)
  | some first =>
    rw [hf] at hfind
    exact ⟨_, hfind⟩

/-- C7: when `readCodeFile` succeeds, every key stored in the table has length 3,
holds no letter `a`..`z`, and is the uppercased three-character start of some
line of the file; and the uppercased three-character start of every line is a
key: `find` hits an entry of the table. -/
theorem C7_keys_of_loaded_table (lines : List CppString) (t : Table)
    (h : readCodeFile (some lines) [] = .ok t) :
    (∀ p ∈ t, p.1.length = 3 ∧
      (∀ c ∈ p.1, ¬ ('a'.toNat ≤ c.toNat ∧ c.toNat ≤ 'z'.toNat)) ∧
      ∃ l ∈ lines, p.1 = toUpperCase (l.take 3)) ∧
    (∀ l ∈ lines, ∃ v, find (toUpperCase (l.take 3)) t = some v ∧
      (toUpperCase (l.take 3), v) ∈ t) := by
  constructor
  · intro p hp
    obtain ⟨l, hl, hwf, rfl⟩ := loaded_entry h hp
    exact ⟨key_length hwf,
      toUpperCase_no_lower _ (by rw [List.length_take]; omega), l, hl, rfl⟩
  · intro l hl
    obtain ⟨v, hv⟩ := loaded_find h hl
    exact ⟨v, hv, mem_of_find hv⟩

/-- C7, at a concrete file with lowercase and mixed-case codes. -/
theorem C7_keys_of_loaded_table_witness :
    readCodeFile (some ["jfk=New York".toList, "Lax=Los Angeles".toList]) []
      = .ok [("JFK".toList, "New York".toList), ("LAX".toList, "Los Angeles".toList)] ∧
    ((∀ p ∈ [("JFK".toList, "New York".toList), ("LAX".toList, "Los Angeles".toList)],
      p.1.length = 3 ∧
      (∀ c ∈ p.1, ¬ ('a'.toNat ≤ c.toNat ∧ c.toNat ≤ 'z'.toNat)) ∧
      ∃ l ∈ ["jfk=New York".toList, "Lax=Los Angeles".toList], p.1 = toUpperCase (l.take 3)) ∧
    (∀ l ∈ ["jfk=New York".toList, "Lax=Los Angeles".toList],
      ∃ v, find (toUpperCase (l.take 3))
          [("JFK".toList, "New York".toList), ("LAX".toList, "Los Angeles".toList)] = some v ∧
        (toUpperCase (l.take 3), v)
          ∈ [("JFK".toList, "New York".toList), ("LAX".toList, "Los Angeles".toList)])) :=
  ⟨by decide, C7_keys_of_loaded_table _ _ (by decide)⟩

/-- C8: in a well-formed file, when `first` is the earliest line with its
uppercased code, the table maps the code of every line with that same
uppercased code to the rest of `first`; and reading a line whose uppercased
code a line before it has already leaves the table as it was before that
line. -/
theorem C8_first_occurrence_wins (lines : List CppString)
    (hwf : ∀ l ∈ lines, 4 ≤ l.length ∧ l.get? 3 = some '=') :
    ∃ t, readCodeFile (some lines) [] = .ok t ∧
      (∀ pre first post, lines = pre ++ first :: post →
        (∀ e ∈ pre, toUpperCase (e.take 3) ≠ toUpperCase (first.take 3)) →
        ∀ l ∈ lines, toUpperCase (l.take 3) = toUpperCase (first.take 3) →
          find (toUpperCase (l.take 3)) t = some (first.drop 4)) ∧
      (∀ pre l post, lines = pre ++ l :: post →
        (∃ e ∈ pre, toUpperCase (e.take 3) = toUpperCase (l.take 3)) →
        ∃ t0, readCodeFile (some pre) [] = .ok t0 ∧
          readCodeFile (some (pre ++ [l])) [] = .ok t0) := by
  have hwf2 : ∀ l ∈ lines, malformed l = false :=
    fun l hl => malformed_eq_false.mpr (hwf l hl)
  obtain ⟨t, ht⟩ := readLines_ok_of_wf [] hwf2
  refine ⟨t, ht, ?_, ?_⟩
  · intro pre first post hsplit hpre l _ hcode
    have hfind := readLines_find (toUpperCase (first.take 3)) ht
    simp only [find] at hfind
    rw [hcode, hfind, hsplit, find?_first _ pre first post (by simpa using hpre) (by simp)]
    rfl
  · rintro pre l post hsplit ⟨e, he, hcode⟩
    have hpre : ∀ x ∈ pre, malformed x = false :=
      fun x hx => hwf2 x (by simp [hsplit, hx])
    have hl : malformed l = false := hwf2 l (by simp [hsplit])
    obtain ⟨t0, ht0⟩ := readLines_ok_of_wf [] hpre
    refine ⟨t0, ht0, ?_⟩
    obtain ⟨v, hv⟩ := loaded_find ht0 he
    rw [hcode] at hv
    show readLines (pre ++ [l]) [] = .ok t0
    rw [readLines_append [l] ht0, readLines_cons_ok [] t0 hl, emplace_of_find _ hv]
    rfl

/-- C8, at the file with the lines `jfk=A` and `JFK=B`: the table maps `JFK` to
`A`, and the second line changes nothing. -/
theorem C8_first_occurrence_wins_witness :
    readCodeFile (some ["jfk=A".toList, "JFK=B".toList]) [] = .ok [("JFK".toList, "A".toList)] ∧
    readCodeFile (some ["jfk=A".toList]) [] = .ok [("JFK".toList, "A".toList)] ∧
    (∀ l ∈ ["jfk=A".toList, "JFK=B".toList], 4 ≤ l.length ∧ l.get? 3 = some '=') ∧
    ∃ t, readCodeFile (some ["jfk=A".toList, "JFK=B".toList]) [] = .ok t ∧
      (∀ pre first post, ["jfk=A".toList, "JFK=B".toList] = pre ++ first :: post →
        (∀ e ∈ pre, toUpperCase (e.take 3) ≠ toUpperCase (first.take 3)) →
        ∀ l ∈ ["jfk=A".toList, "JFK=B".toList],
          toUpperCase (l.take 3) = toUpperCase (first.take 3) →
          find (toUpperCase (l.take 3)) t = some (first.drop 4)) ∧
      (∀ pre l post, ["jfk=A".toList, "JFK=B".toList] = pre ++ l :: post →
        (∃ e ∈ pre, toUpperCase (e.take 3) = toUpperCase (l.take 3)) →
        ∃ t0, readCodeFile (some pre) [] = .ok t0 ∧
          readCodeFile (some (pre ++ [l])) [] = .ok t0) :=
  ⟨by decide, by decide, by decide, C8_first_occurrence_wins _ (by decide)⟩

/-- C9: when the file has a malformed line, it splits at its first malformed line
`bad` (all lines before it are well formed); the run writes exactly
`Illegal data line: ` followed by `bad`, once and nothing else, reads no query
and ends; and the run is the same whatever lines follow `bad`. -/
theorem C9_first_malformed_line_reported (lines cin : List CppString)
    (h : ∃ l ∈ lines, l.length < 4 ∨ l.get? 3 ≠ some '=') :
    ∃ pre bad post, lines = pre ++ bad :: post ∧
      (∀ l ∈ pre, 4 ≤ l.length ∧ l.get? 3 = some '=') ∧
      (bad.length < 4 ∨ bad.get? 3 ≠ some '=') ∧
      main (some lines) cin
        = { cout := ["Illegal data line: ".toList ++ bad], cin := cin, finds := [], status := 0 } ∧
      text (main (some lines) cin).cout = "Illegal data line: ".toList ++ bad ∧
      ∀ others, main (some (pre ++ bad :: others)) cin = main (some lines) cin := by
  obtain ⟨l, hl, hbad⟩ := h
  obtain ⟨e, he⟩ := readLines_error_of_mem [] hl (malformed_eq_true.mpr hbad)
  obtain ⟨pre, bad, post, h1, h2, h3, h4⟩ := readLines_error he
  have hmain : ∀ others, main (some (pre ++ bad :: others)) cin
      = { cout := ["Illegal data line: ".toList ++ bad], cin := cin, finds := [],
          status := 0 } := by
    intro others
    have := readLines_first_bad bad others [] h2 h3
    simp [main, readCodeFile, this, illegalLine]
  refine ⟨pre, bad, post, h1, fun x hx => malformed_eq_false.mp (h2 x hx),
    malformed_eq_true.mp h3, ?_, ?_, ?_⟩
  · rw [h1]; exact hmain post
  · rw [h1, hmain post]; simp [text]
  · intro others
    rw [h1, hmain others, hmain post]

/-- C9, at a file with two malformed lines: the first of them, `JFK New York`, is
the one reported. -/
theorem C9_first_malformed_line_reported_witness :
    (∃ l ∈ ["LAX=Los Angeles".toList, "JFK New York".toList, "x".toList],
      l.length < 4 ∨ l.get? 3 ≠ some '=') ∧
    text (main (some ["LAX=Los Angeles".toList, "JFK New York".toList, "x".toList])
        ["LAX".toList]).cout = "Illegal data line: JFK New York".toList ∧
    ∃ pre bad post, ["LAX=Los Angeles".toList, "JFK New York".toList, "x".toList]
        = pre ++ bad :: post ∧
      (∀ l ∈ pre, 4 ≤ l.length ∧ l.get? 3 = some '=') ∧
      (bad.length < 4 ∨ bad.get? 3 ≠ some '=') ∧
      main (some ["LAX=Los Angeles".toList, "JFK New York".toList, "x".toList]) ["LAX".toList]
        = { cout := ["Illegal data line: ".toList ++ bad], cin := ["LAX".toList], finds := [],
            status := 0 } ∧
      text (main (some ["LAX=Los Angeles".toList, "JFK New York".toList, "x".toList])
        ["LAX".toList]).cout = "Illegal data line: ".toList ++ bad ∧
      ∀ others, main (some (pre ++ bad :: others)) ["LAX".toList]
        = main (some ["LAX=Los Angeles".toList, "JFK New York".toList, "x".toList])
            ["LAX".toList] :=
  ⟨by decide, by decide, C9_first_malformed_line_reported _ _ (by decide)⟩

/-- C10, as stated, fails at the empty line: its length is not 3, yet the loop
writes no answer for it, it only stops.  With the table loaded from
`JFK=New York` and the empty line as input the whole output is one prompt. -/
theorem C10_counterexample_empty_line :
    readCodeFile (some ["JFK=New York".toList]) [] = .ok [("JFK".toList, "New York".toList)] ∧
    (queryLoop [("JFK".toList, "New York".toList)] [] [] [[]]).cout = [prompt] ∧
    ¬ (∀ (lines : List CppString) (t : Table) (q : CppString) (rest : List CppString),
        readCodeFile (some lines) [] = .ok t → q.length ≠ 3 →
        (queryLoop t [] [] (q :: rest)).cout
          = prompt :: "There is no such airport code\n".toList
              :: (queryLoop t [] [] rest).cout) := by
  refine ⟨by decide, by decide, ?_⟩
  intro h
  have := h ["JFK=New York".toList] [("JFK".toList, "New York".toList)] [] []
    (by decide) (by decide)
  revert this
  decide

/-- C10, amended: for every table loaded by a successful `readCodeFile` and every
non-empty input line whose length is not 3, the key looked up is the whole
uppercased line, it is not found, and the answer is
`There is no such airport code`; a lookup that does succeed has hit a stored key
of length 3 equal to the whole uppercased line. -/
theorem C10_only_three_character_lines_match (lines : List CppString) (t : Table)
    (q : CppString) (rest : List CppString)
    (h : readCodeFile (some lines) [] = .ok t) (hq : q ≠ []) :
    (q.length ≠ 3 →
      find (toUpperCase q) t = none ∧
      (queryLoop t [] [] (q :: rest)).cout
        = prompt :: "There is no such airport code\n".toList :: (queryLoop t [] [] rest).cout) ∧
    (queryLoop t [] [] (q :: rest)).finds = toUpperCase q :: (queryLoop t [] [] rest).finds ∧
    (∀ city, find (toUpperCase q) t = some city →
      q.length = 3 ∧ (toUpperCase q, city) ∈ t) := by
  have hhit : ∀ city, find (toUpperCase q) t = some city →
      q.length = 3 ∧ (toUpperCase q, city) ∈ t := by
    intro city hcity
    have hmem := mem_of_find hcity
    obtain ⟨l, _, hwf, hp⟩ := loaded_entry h hmem
    have hk : toUpperCase q = toUpperCase (l.take 3) := congrArg Prod.fst hp
    have hlen := key_length hwf
    rw [← hk, toUpperCase_length] at hlen
    exact ⟨hlen, hmem⟩
  refine ⟨?_, ?_, hhit⟩
  · intro hlen
    have hnone : find (toUpperCase q) t = none := by
      cases hf : find (toUpperCase q) t with
      | none => rfl
      | some city => exact absurd (hhit city hf).1 hlen
    refine ⟨hnone, ?_⟩
    rw [queryLoop_cons t [] [] rest hq, queryLoop_cout, answer_of_not_find hnone]
    rfl
  · rw [queryLoop_eq t (q :: rest), queryLoop_eq t rest]
    simp [queries, hq]

/-- C10, at the table loaded from `JFK=New York`: the line `JFK ` with a trailing
space is answered with the message. -/
theorem C10_only_three_character_lines_match_witness :
    readCodeFile (some ["JFK=New York".toList]) [] = .ok [("JFK".toList, "New York".toList)] ∧
    "JFK ".toList ≠ [] ∧
    (queryLoop [("JFK".toList, "New York".toList)] [] []
        ["JFK ".toList, "JFKX".toList, "JF".toList]).cout
      = [prompt, "There is no such airport code\n".toList,
         prompt, "There is no such airport code\n".toList,
         prompt, "There is no such airport code\n".toList, prompt] ∧
    ("JFK ".toList.length ≠ 3 →
      find (toUpperCase "JFK ".toList) [("JFK".toList, "New York".toList)] = none ∧
      (queryLoop [("JFK".toList, "New York".toList)] [] [] ("JFK ".toList :: [])).cout
        = prompt :: "There is no such airport code\n".toList
            :: (queryLoop [("JFK".toList, "New York".toList)] [] [] []).cout) :=
  ⟨by decide, by decide, by decide,
   (C10_only_three_character_lines_match ["JFK=New York".toList] _ "JFK ".toList []
      (by decide) (by decide)).1⟩

/-! ### The run as a whole: C11 to C15 -/

theorem queryLoop_table (t : Table) (cin cout finds : List CppString) :
    (queryLoop t cout finds cin).airportCodes = t := by
  rw [queryLoop_eq t cin cout finds]

/-- C11: for every table and every standard input the table after the query loop
is the table before it.  A key that is missed is still missing afterwards; the
expression `airportCodes[code]`, which would insert a missing key with the empty
string, is evaluated at present keys only, where it returns the stored value and
the map as it was. -/
theorem C11_table_is_read_only (t : Table) (cin cout finds : List CppString) :
    (queryLoop t cout finds cin).airportCodes = t ∧
    (∀ q ∈ cin, find (toUpperCase q) t = none →
      find (toUpperCase q) (queryLoop t cout finds cin).airportCodes = none) ∧
    (∀ k v, find k t = some v → subscript k t = (v, t)) ∧
    (∀ k, find k t = none →
      subscript k t = ([], emplace k [] t) ∧ find k (subscript k t).2 = some []) := by
  refine ⟨queryLoop_table t cin cout finds, ?_, ?_, ?_⟩
  · intro q _ hq
    rw [queryLoop_table]
    exact hq
  · intro k v h
    exact subscript_of_find h
  · intro k h
    have hs : subscript k t = ([], emplace k [] t) := by simp [subscript, h]
    refine ⟨hs, ?_⟩
    rw [hs, find_emplace_self, h]
    rfl

/-- C11, at the table loaded from `JFK=New York` with a hit, two misses and a
line after the empty one: the table is the same after the loop, and `XYZ` is
still not a key. -/
theorem C11_table_is_read_only_witness :
    (queryLoop [("JFK".toList, "New York".toList)] [] []
        ["jfk".toList, "xyz".toList, "JFK ".toList, [], "LAX".toList]).airportCodes
      = [("JFK".toList, "New York".toList)] ∧
    (∀ q ∈ ["jfk".toList, "xyz".toList, "JFK ".toList, [], "LAX".toList],
      find (toUpperCase q) [("JFK".toList, "New York".toList)] = none →
      find (toUpperCase q)
        (queryLoop [("JFK".toList, "New York".toList)] [] []
          ["jfk".toList, "xyz".toList, "JFK ".toList, [], "LAX".toList]).airportCodes = none) ∧
    find "XYZ".toList [("JFK".toList, "New York".toList)] = none :=
  ⟨(C11_table_is_read_only [("JFK".toList, "New York".toList)]
      ["jfk".toList, "xyz".toList, "JFK ".toList, [], "LAX".toList] [] []).1,
   (C11_table_is_read_only [("JFK".toList, "New York".toList)]
      ["jfk".toList, "xyz".toList, "JFK ".toList, [], "LAX".toList] [] []).2.1,
   by decide⟩

/-- C12: every run of `main` ends with status 0.  When the file cannot be opened
the whole run is the one write `Can't read the data file` to standard output and
`exit(0)`; when `readCodeFile` ends the process on a malformed line the run is
the one write `Illegal data line: ` and that line to standard output and
`exit(0)`; these are the only two ways it ends the process. -/
theorem C12_exit_status_is_zero (file : Option (List CppString)) (cin : List CppString) :
    (main file cin).status = 0 ∧
    main none cin
      = { cout := ["Can't read the data file".toList], cin := cin, finds := [], status := 0 } ∧
    (∀ e, readCodeFile file [] = .error e →
      e.status = 0 ∧
      main file cin = { cout := e.cout, cin := cin, finds := [], status := 0 } ∧
      ((file = none ∧ e.cout = ["Can't read the data file".toList]) ∨
        ∃ lines bad, file = some lines ∧ bad ∈ lines ∧
          (bad.length < 4 ∨ bad.get? 3 ≠ some '=') ∧
          e.cout = ["Illegal data line: ".toList ++ bad])) := by
  have herr : ∀ e, readCodeFile file [] = .error e →
      e.status = 0 ∧
      ((file = none ∧ e.cout = ["Can't read the data file".toList]) ∨
        ∃ lines bad, file = some lines ∧ bad ∈ lines ∧
          (bad.length < 4 ∨ bad.get? 3 ≠ some '=') ∧
          e.cout = ["Illegal data line: ".toList ++ bad]) := by
    intro e he
    cases file with
    | none =>
      simp only [readCodeFile] at he
      cases he
      exact ⟨rfl, Or.inl ⟨rfl, rfl⟩⟩
    | some lines =>
      obtain ⟨pre, bad, post, h1, _, h3, h4⟩ := readLines_error he
      subst h4
      exact ⟨rfl, Or.inr ⟨lines, bad, rfl, by simp [h1], malformed_eq_true.mp h3, rfl⟩⟩
  refine ⟨?_, rfl, ?_⟩
  · cases h : readCodeFile file [] with
    | error e => simp [main, h, (herr e h).1]
    | ok t => rw [main_of_ok h]
  · intro e he
    obtain ⟨h1, h2⟩ := herr e he
    refine ⟨h1, ?_, h2⟩
    simp [main, he, h1]

/-- C12, at a missing file and at a file with a malformed line: both runs write
the diagnostic and end with status 0. -/
theorem C12_exit_status_is_zero_witness :
    main none ["JFK".toList]
      = { cout := ["Can't read the data file".toList], cin := ["JFK".toList], finds := [],
          status := 0 } ∧
    readCodeFile (some ["JFK New York".toList]) []
      = .error { cout := ["Illegal data line: JFK New York".toList], status := 0 } ∧
    (({ cout := ["Illegal data line: JFK New York".toList], status := 0 } : Exit).status = 0 ∧
      main (some ["JFK New York".toList]) ["JFK".toList]
        = { cout := ({ cout := ["Illegal data line: JFK New York".toList], status := 0 } : Exit).cout
            cin := ["JFK".toList], finds := [], status := 0 }) :=
  ⟨(C12_exit_status_is_zero none ["JFK".toList]).2.1, by decide,
   ((C12_exit_status_is_zero (some ["JFK New York".toList]) ["JFK".toList]).2.2
      { cout := ["Illegal data line: JFK New York".toList], status := 0 } (by decide)).1,
   ((C12_exit_status_is_zero (some ["JFK New York".toList]) ["JFK".toList]).2.2
      { cout := ["Illegal data line: JFK New York".toList], status := 0 } (by decide)).2.1⟩

theorem toupper_idem (c : Char) : toupper (toupper c) = toupper c :=
  toupper_of_not_lower (toupper_not_lower c)

theorem toUpperCase_get? (s : CppString) (hs : s.length ≤ 2147483648) (i : Nat) :
    (toUpperCase s).get? i = (s.get? i).map toupper := by
  simp [toUpperCase_eq_map hs]

/-- On a string of at most 2147483648 characters (`INT_MAX + 1`) `toUpperCase`
folds the case: it keeps the length; at every index a letter `a`..`z` is
replaced by the letter of `A`..`Z` at the same place in the alphabet, and any
other character stays as it is; applying it twice gives the same as applying it
once. -/
theorem toUpperCase_folds_case_of_short (s : CppString) (hs : s.length ≤ 2147483648) :
    (toUpperCase s).length = s.length ∧
    (∀ i c, s.get? i = some c →
      ∃ u, (toUpperCase s).get? i = some u ∧
        (('a'.toNat ≤ c.toNat ∧ c.toNat ≤ 'z'.toNat) →
          u.toNat = c.toNat - 'a'.toNat + 'A'.toNat ∧
          'A'.toNat ≤ u.toNat ∧ u.toNat ≤ 'Z'.toNat) ∧
        (¬ ('a'.toNat ≤ c.toNat ∧ c.toNat ≤ 'z'.toNat) → u = c)) ∧
    toUpperCase (toUpperCase s) = toUpperCase s := by
  have ha : 'a'.toNat = 97 := rfl
  have hz : 'z'.toNat = 122 := rfl
  have hA : 'A'.toNat = 65 := rfl
  have hZ : 'Z'.toNat = 90 := rfl
  refine ⟨toUpperCase_length s, ?_, ?_⟩
  · intro i c hc
    refine ⟨toupper c, by rw [toUpperCase_get? s hs, hc]; rfl, ?_, ?_⟩
    · intro hlow
      rw [ha, hz] at hlow
      rw [toupper_of_lower hlow, ha, hA, hZ]
      omega
    · intro hnot
      rw [ha, hz] at hnot
      exact toupper_of_not_lower hnot
  · have hs2 : (toUpperCase s).length ≤ 2147483648 := by rw [toUpperCase_length]; exact hs
    rw [toUpperCase_eq_map hs2, toUpperCase_eq_map hs, List.map_map]
    apply List.map_congr_left
    intro c _
    exact toupper_idem c

/-- The case folding at a string with lowercase and uppercase letters, a digit, a
space and punctuation. -/
theorem toUpperCase_folds_case_of_short_witness :
    toUpperCase "jfk Z-9=az!".toList = "JFK Z-9=AZ!".toList ∧
    "jfk Z-9=az!".toList.get? 1 = some 'f' ∧
    ∃ u, (toUpperCase "jfk Z-9=az!".toList).get? 1 = some u ∧
      (('a'.toNat ≤ 'f'.toNat ∧ 'f'.toNat ≤ 'z'.toNat) →
        u.toNat = 'f'.toNat - 'a'.toNat + 'A'.toNat ∧
        'A'.toNat ≤ u.toNat ∧ u.toNat ≤ 'Z'.toNat) ∧
      (¬ ('a'.toNat ≤ 'f'.toNat ∧ 'f'.toNat ≤ 'z'.toNat) → u = 'f') :=
  ⟨by decide, by decide,
   (toUpperCase_folds_case_of_short "jfk Z-9=az!".toList (by decide)).2.1 1 'f' (by decide)⟩

theorem toUpperCase_long_line :
    toUpperCase (List.replicate 2147483649 'a')
      = List.replicate 2147483648 'A' ++ ['a'] := by
  rw [toUpperCase_eq _ (by rw [List.length_replicate]; omega), List.take_replicate,
    List.drop_replicate, List.map_replicate]
  have h1 : min 2147483648 2147483649 = 2147483648 := by omega
  have h2 : 2147483649 - 2147483648 = 1 := by omega
  have h3 : toupper 'a' = 'A' := by decide
  rw [h1, h2, h3]
  exact congrArg _ (List.replicate_one)

/-- C14 fails on the code at a string longer than `INT_MAX`: in the string of
2147483649 letters `a` the character at index 2147483648 is the letter `a`, and
it is still `a` in the result of `toUpperCase`, while the character at index
2147483647 has become `A`; the result is 2147483648 letters `A` followed by one
`a`.  The counter `int i` wraps after index 2147483647 and the loop stops. -/
theorem C14_toUpperCase_stops_at_int_max :
    (List.replicate 2147483649 'a').get? 2147483648 = some 'a' ∧
    (toUpperCase (List.replicate 2147483649 'a')).get? 2147483648 = some 'a' ∧
    (toUpperCase (List.replicate 2147483649 'a')).get? 2147483647 = some 'A' ∧
    toUpperCase (List.replicate 2147483649 'a') = List.replicate 2147483648 'A' ++ ['a'] := by
  refine ⟨?_, ?_, ?_, toUpperCase_long_line⟩
  · rw [List.get?_eq_getElem?, List.getElem?_replicate, if_pos (by omega)]
  · rw [toUpperCase_long_line, List.get?_eq_getElem?,
      List.getElem?_append_right (by rw [List.length_replicate]), List.length_replicate,
      Nat.sub_self]
    rfl
  · rw [toUpperCase_long_line, List.get?_eq_getElem?,
      List.getElem?_append_left (by rw [List.length_replicate]; omega),
      List.getElem?_replicate, if_pos (by omega)]

theorem queries_of_no_empty {cin : List CppString} (h : [] ∉ cin) :
    queries cin = cin ∧ unread cin = [] := by
  rcases (queries_split cin).2 with ⟨h1, h2⟩ | h1
  · exact ⟨h1.symm, h2⟩
  · exact absurd (by rw [h1]; simp) h

/-- C15: on a standard input without an empty line the query loop returns: every
line is prompted for and answered in order, then the prompt is written once
more, the read at the end of the input leaves the line empty and the loop
stops; nothing is left unread, the output has one prompt and one answer for
each line and one last prompt, and `main` returns 0. -/
theorem C15_loop_ends_at_end_of_input (t : Table) (cin : List CppString) (h : [] ∉ cin) :
    queryLoop t [] [] cin
      = { airportCodes := t
          cin := []
          cout := cin.flatMap (fun q => [prompt, answer t q]) ++ [prompt]
          finds := cin.map toUpperCase } ∧
    (queryLoop t [] [] cin).cout.length = cin.length + (cin.length + 1) ∧
    (queryLoop t [] [] cin).cout.count prompt = cin.length + 1 ∧
    (∀ file, readCodeFile file [] = .ok t →
      main file cin
        = { cout := cin.flatMap (fun q => [prompt, answer t q]) ++ [prompt]
            cin := []
            finds := cin.map toUpperCase
            status := 0 }) := by
  obtain ⟨hq, hu⟩ := queries_of_no_empty h
  have heq := queryLoop_eq t cin [] []
  simp only [List.nil_append, hq, hu] at heq
  refine ⟨heq, ?_, ?_, ?_⟩
  · rw [heq]
    simp only [List.length_append, length_turns, List.length_cons, List.length_nil]
    omega
  · rw [heq]
    simp [List.count_append, count_prompt]
  · intro file hfile
    rw [main_of_ok hfile, heq]

/-- C15, at the table loaded from `JFK=New York` and an input of two lines with no
empty line: two answers, three prompts, status 0. -/
theorem C15_loop_ends_at_end_of_input_witness :
    [] ∉ ["jfk".toList, "LAX".toList] ∧
    main (some ["JFK=New York".toList]) ["jfk".toList, "LAX".toList]
      = { cout := [prompt, "JFK is in New York\n".toList, prompt,
                    "There is no such airport code\n".toList, prompt]
          cin := []
          finds := ["JFK".toList, "LAX".toList]
          status := 0 } ∧
    queryLoop [("JFK".toList, "New York".toList)] [] [] ["jfk".toList, "LAX".toList]
      = { airportCodes := [("JFK".toList, "New York".toList)]
          cin := []
          cout := ["jfk".toList, "LAX".toList].flatMap
            (fun q => [prompt, answer [("JFK".toList, "New York".toList)] q]) ++ [prompt]
          finds := ["jfk".toList, "LAX".toList].map toUpperCase } :=
  ⟨by decide, by decide,
   (C15_loop_ends_at_end_of_input [("JFK".toList, "New York".toList)]
      ["jfk".toList, "LAX".toList] (by decide)).1⟩

/-! ### The order of the records: C13 -/

theorem strLt_cases (a b : CppString) :
    (strLt a b = true ∧ strLt b a = false) ∨ a = b ∨
      (strLt b a = true ∧ strLt a b = false) := by
  cases hab : strLt a b with
  | true => exact Or.inl ⟨rfl, strLt_asymm a b hab⟩
  | false =>
    cases hba : strLt b a with
    | true => exact Or.inr (Or.inr ⟨rfl, rfl⟩)
    | false => exact Or.inr (Or.inl (strLt_total a b hab hba))

/-- Two insertions under different keys give the same map in either order. -/
theorem emplace_comm {k1 k2 : CppString} (v1 v2 : CppString) (hne : k1 ≠ k2) (m : Table) :
    emplace k1 v1 (emplace k2 v2 m) = emplace k2 v2 (emplace k1 v1 m) := by
  induction m with
  | nil =>
    rcases strLt_cases k1 k2 with ⟨h1, h2⟩ | h | ⟨h1, h2⟩
    · simp [emplace, h1, h2]
    · exact absurd h hne
    · simp [emplace, h1, h2]
  | cons p m ih =>
    obtain ⟨e, w⟩ := p
    rcases strLt_cases e k1 with ⟨a1, a2⟩ | a | ⟨a1, a2⟩
    · rcases strLt_cases e k2 with ⟨b1, b2⟩ | b | ⟨b1, b2⟩
      · simp [emplace, a1, b1, ih]
      · subst b
        simp [emplace, a1, strLt_irrefl]
      · have c1 : strLt k2 k1 = true := strLt_trans k2 e k1 b1 a1
        simp [emplace, a1, b1, b2, c1]
    · subst a
      rcases strLt_cases e k2 with ⟨b1, b2⟩ | b | ⟨b1, b2⟩
      · simp [emplace, b1, strLt_irrefl]
      · exact absurd b hne
      · simp [emplace, b1, b2, strLt_irrefl]
    · rcases strLt_cases e k2 with ⟨b1, b2⟩ | b | ⟨b1, b2⟩
      · have c1 : strLt k1 k2 = true := strLt_trans k1 e k2 a1 b1
        simp [emplace, a1, a2, b1, c1]
      · subst b
        simp [emplace, a1, a2, strLt_irrefl]
      · rcases strLt_cases k1 k2 with ⟨c1, c2⟩ | c | ⟨c1, c2⟩
        · simp [emplace, a1, a2, b1, b2, c1, c2]
        · exact absurd c hne
        · simp [emplace, a1, a2, b1, b2, c1, c2]

theorem readLines_eq_foldl {lines : List CppString} :
    ∀ (m : Table), (∀ l ∈ lines, malformed l = false) →
      readLines lines m
        = .ok (lines.foldl (fun t l => emplace (toUpperCase (l.take 3)) (l.drop 4) t) m) := by
  induction lines with
  | nil => intro m _; rfl
  | cons line rest ih =>
    intro m h
    rw [readLines_cons_ok rest m (h line (List.mem_cons_self _ _)),
      ih _ (fun l hl => h l (List.mem_cons_of_mem _ hl))]
    rfl

/-- C13, as stated, fails: the well-formed file with the lines `JFK=A` and `JFK=B`
gives the table that maps `JFK` to `A`, the same lines in the other order give
the table that maps `JFK` to `B`.  Hence the tables of a file and of a
permutation of it need not agree, not even on the city of a key. -/
theorem C13_counterexample_duplicate_code :
    List.Perm ["JFK=A".toList, "JFK=B".toList] ["JFK=B".toList, "JFK=A".toList] ∧
    readCodeFile (some ["JFK=A".toList, "JFK=B".toList]) []
      = .ok [("JFK".toList, "A".toList)] ∧
    readCodeFile (some ["JFK=B".toList, "JFK=A".toList]) []
      = .ok [("JFK".toList, "B".toList)] ∧
    ¬ (∀ (lines lines2 : List CppString) (t t2 : Table),
        (∀ l ∈ lines, 4 ≤ l.length ∧ l.get? 3 = some '=') → List.Perm lines lines2 →
        readCodeFile (some lines) [] = .ok t → readCodeFile (some lines2) [] = .ok t2 →
        ∀ k, find k t = find k t2) := by
  refine ⟨List.Perm.swap _ _ _, by decide, by decide, ?_⟩
  intro h
  have := h ["JFK=A".toList, "JFK=B".toList] ["JFK=B".toList, "JFK=A".toList]
    [("JFK".toList, "A".toList)] [("JFK".toList, "B".toList)]
    (by decide) (List.Perm.swap _ _ _) (by decide) (by decide) "JFK".toList
  revert this
  decide

/-- C13, amended: for every file in which every line has length at least 4 and `=`
at index 3, and in which lines with the same uppercased code have the same city
name (as when all codes are different), `readCodeFile` yields one and the same
table for the file and for every permutation of its lines. -/
theorem C13_order_irrelevant_without_conflict (lines lines2 : List CppString)
    (hwf : ∀ l ∈ lines, 4 ≤ l.length ∧ l.get? 3 = some '=')
    (hsame : ∀ x ∈ lines, ∀ y ∈ lines,
      toUpperCase (x.take 3) = toUpperCase (y.take 3) → x.drop 4 = y.drop 4)
    (hperm : List.Perm lines lines2) :
    ∃ t, readCodeFile (some lines) [] = .ok t ∧ readCodeFile (some lines2) [] = .ok t := by
  have hwf1 : ∀ l ∈ lines, malformed l = false :=
    fun l hl => malformed_eq_false.mpr (hwf l hl)
  have hwf2 : ∀ l ∈ lines2, malformed l = false :=
    fun l hl => hwf1 l (hperm.mem_iff.mpr hl)
  refine ⟨_, readLines_eq_foldl [] hwf1, ?_⟩
  show readLines lines2 [] = _
  rw [readLines_eq_foldl [] hwf2]
  congr 1
  refine (List.Perm.foldl_eq' hperm ?_ []).symm
  intro x hx y hy z
  by_cases hk : toUpperCase (x.take 3) = toUpperCase (y.take 3)
  · have hv := hsame x hx y hy hk
    simp only [hk, hv]
  · exact emplace_comm _ _ (fun e => hk e.symm) z

/-- C13, at a file with three lines, two of them with the code `JFK` and the same
city, and the same lines in another order: both give the same table. -/
theorem C13_order_irrelevant_without_conflict_witness :
    readCodeFile (some ["JFK=New York".toList, "lax=Los Angeles".toList, "jfk=New York".toList]) []
      = .ok [("JFK".toList, "New York".toList), ("LAX".toList, "Los Angeles".toList)] ∧
    readCodeFile (some ["lax=Los Angeles".toList, "jfk=New York".toList, "JFK=New York".toList]) []
      = .ok [("JFK".toList, "New York".toList), ("LAX".toList, "Los Angeles".toList)] ∧
    ∃ t,
      readCodeFile (some ["JFK=New York".toList, "lax=Los Angeles".toList, "jfk=New York".toList])
          [] = .ok t ∧
      readCodeFile (some ["lax=Los Angeles".toList, "jfk=New York".toList, "JFK=New York".toList])
          [] = .ok t :=
  ⟨by decide, by decide,
   C13_order_irrelevant_without_conflict
     ["JFK=New York".toList, "lax=Los Angeles".toList, "jfk=New York".toList]
     ["lax=Los Angeles".toList, "jfk=New York".toList, "JFK=New York".toList]
     (by decide) (by decide)
     (@List.perm_append_comm _ ["JFK=New York".toList]
        ["lax=Los Angeles".toList, "jfk=New York".toList])⟩

end AirportCodes
